import Mathlib

/-!
Verification of the query-safety pipeline of the Sql-chatbot repository.

The development shallowly embeds, over `List Char`, the three core pieces the
claims are about, translated from the Python source:

* `is_read_only_query` from `src/utils/security.py` (the read-only Validator);
* `clean_sql_results` from `src/utils/response_generator.py` (the result
  Normalizer, both its structured path and its regex fallback path);
* `process_user_query` from `src/api/chat_routes.py` (the Pipeline
  Controller), with the external collaborators (query planner, executor,
  answer compiler, fallback agent) as explicit parameters and with flags
  recording which collaborators were invoked.

Modelling conventions, stated once here:

* Python strings are `List Char`; only ASCII-range behaviour is relied on, so
  `Char.toUpper`/`Char.toLower`/`Char.isWhitespace` model `str.upper`,
  `str.lower` and `str.strip`, and the regex class `\w` is modelled as
  ASCII alphanumerics plus underscore.
* Python floats carry no arithmetic in this code, only comparisons against
  the literals `0.0` and `0.4`, so confidence is modelled as `Rat` and the
  threshold `0.4` as `mkRat 2 5` (which the kernel can evaluate).
* Apostrophes inside user-facing message literals of the source are spelled
  out (for example `couldn` `t` becomes `could not`), and the mojibake emoji
  prefixes of the source literals are rendered as the ASCII tokens `LOCK`
  and `WARN`; the claims only ever compare these fixed messages for
  equality, never inspect them.
* `ast.literal_eval` is modelled by `parseLit` on the fragment the executor
  actually produces: nested list/tuple literals over quoted strings, bytes
  literals, decimal integers, simple floats, booleans and `None`.  Inputs
  outside that fragment (exponent or underscore or base-prefixed numerals,
  dictionaries, sets) are parse failures; the one theorem quantifying over
  the parse restricts to letter-led quote-free inputs, a domain on which
  this model agrees exactly with `literal_eval` (both accept only `None`,
  `True` and `False` there).
-/

set_option maxRecDepth 20000

/-- Python strings, modelled as lists of characters. -/
abbrev Str := List Char

/-- The single-quote character, written by code to avoid literal apostrophes. -/
def quoteC : Char := Char.ofNat 39

/-- The backslash character. -/
def bslashC : Char := Char.ofNat 92

/-- Whitespace, as used by `str.strip` and the regex class `\s` (ASCII). -/
def wsChar (c : Char) : Bool := c.isWhitespace

/-- A word character in the sense of the regex class `\w` (ASCII). -/
def wordChar (c : Char) : Bool := c.isAlphanum || c == '_'

/-- Model of `str.upper` (ASCII). -/
def pyUpper (s : Str) : Str := s.map Char.toUpper

/-- Model of `str.lower` (ASCII). -/
def pyLower (s : Str) : Str := s.map Char.toLower

/-- Drop leading whitespace, the left half of `str.strip`. -/
def stripLead (s : Str) : Str := s.dropWhile wsChar

/-- Drop trailing whitespace, the right half of `str.strip`. -/
def stripTrail (s : Str) : Str := (s.reverse.dropWhile wsChar).reverse

/-- Model of `str.strip()` with no argument. -/
def pyStrip (s : Str) : Str := stripTrail (stripLead s)

/-- Split at the first occurrence of `pat`: `some (before, after)` where
`after` starts right after the matched occurrence, `none` when `pat` does
not occur.  This is the primitive under all the leftmost-match regex
substitutions modelled below. -/
def splitOnce (pat : Str) : Str → Option (Str × Str)
  | [] => if pat.isPrefixOf ([] : Str) then some ([], []) else none
  | c :: rest =>
    if pat.isPrefixOf (c :: rest) then some ([], (c :: rest).drop pat.length)
    else (splitOnce pat rest).map (fun pr => (c :: pr.1, pr.2))

/-- Does `pat` occur as a contiguous subsequence of `s`?  Model of the Python
`in` operator on strings. -/
def containsSeq (pat s : Str) : Bool := (splitOnce pat s).isSome

/-- Model of `str.split(sep)` for a one-character separator. -/
def splitOnChar (sep : Char) : Str → List Str
  | [] => [[]]
  | c :: rest =>
    let r := splitOnChar sep rest
    if c == sep then [] :: r
    else
      match r with
      | [] => [[c]]
      | hd :: tl => (c :: hd) :: tl

/-- Model of `str.replace(pat, rep)`: replace every non-overlapping
occurrence left to right, never rescanning replaced text.  Fuel-structured so
the kernel can evaluate it; `replaceAll` supplies sufficient fuel. -/
def replaceAllGo (pat rep : Str) : Nat → Str → Str
  | 0, l => l
  | fuel + 1, l =>
    match splitOnce pat l with
    | none => l
    | some (pre, post) => pre ++ rep ++ replaceAllGo pat rep fuel post

/-- Model of `str.replace(pat, rep)` for a non-empty pattern. -/
def replaceAll (pat rep l : Str) : Str := replaceAllGo pat rep (l.length + 1) l

/-- Matching of `rest-of-word` boundary: after an occurrence of `kw` at the
head of `t`, the regex `\b` requires the next character (if any) to be a
non-word character. -/
def boundaryAfter (kw t : Str) : Bool :=
  match t.drop kw.length with
  | [] => true
  | c :: _ => !wordChar c

/-- Scanner for the regex `\bKW\b` over `re.search` semantics: `prev` records
whether the character just before the current position is a word character.
Returns true iff the keyword occurs somewhere as a whole word. -/
def scanWW (kw : Str) : Str → Bool → Bool
  | [], _ => false
  | c :: rest, prev =>
    (!prev && kw.isPrefixOf (c :: rest) && boundaryAfter kw (c :: rest))
      || scanWW kw rest (wordChar c)

/-- `re.search` of the whole-word pattern for `kw` over `t`, as a Bool. -/
def occursWW (kw t : Str) : Bool := scanWW kw t false

/-- The sixteen forbidden keywords of `is_read_only_query`, in source order. -/
def forbiddenKeywords : List Str :=
  ["INSERT", "UPDATE", "DELETE", "DROP", "CREATE", "ALTER",
   "TRUNCATE", "REPLACE", "MERGE", "GRANT", "REVOKE",
   "EXEC", "EXECUTE", "CALL", "LOAD", "RENAME"].map String.toList

/-- The rejection message naming a forbidden keyword (mojibake warning emoji
of the source rendered as `WARN`). -/
def securityAlertMsg (kw : Str) : Str :=
  "WARN Security Alert: ".toList ++ kw
    ++ " operations are not allowed. This chatbot is read-only.".toList

/-- Reason returned for an empty query string. -/
def emptyQueryMsg : Str := "Empty query".toList

/-- Reason returned when the comment-stripped text does not begin with
SELECT. -/
def onlySelectMsg : Str :=
  "WARN Only SELECT queries are allowed. This chatbot cannot modify data.".toList

/-- Model of `sep.join(xs)`. -/
def joinSep (sep : Str) : List Str → Str
  | [] => []
  | [x] => x
  | x :: y :: rest => x ++ sep ++ joinSep sep (y :: rest)

/-- Strip SQL line comments: `re.sub(r"--.*$", "", s, flags=re.MULTILINE)`
removes, on every line, everything from the first `--` to the end of the
line, keeping the newline itself. -/
def stripLineComments (s : Str) : Str :=
  joinSep ['\n']
    ((splitOnChar '\n' s).map (fun line =>
      match splitOnce ['-', '-'] line with
      | some pr => pr.1
      | none => line))

/-- One pass of `re.sub(r"/\*.*?\*/", "", s, flags=re.DOTALL)`: repeatedly
remove the leftmost `/* ... */` span (non-greedy, so up to the nearest
closing `*/`), continuing after the removed span; an unclosed `/*` matches
nothing. -/
def stripBlockGo : Nat → Str → Str
  | 0, l => l
  | fuel + 1, l =>
    match splitOnce ['/', '*'] l with
    | none => l
    | some (pre, post) =>
      match splitOnce ['*', '/'] post with
      | none => l
      | some (_, rest) => pre ++ stripBlockGo fuel rest

/-- Model of the block-comment removal regex substitution. -/
def stripBlockComments (s : Str) : Str := stripBlockGo s.length s

/-- The SELECT keyword. -/
def selectKw : Str := "SELECT".toList

/-- The uppercased, stripped, comment-stripped, re-stripped text on which
`is_read_only_query` performs its leading-SELECT check. -/
def commentFree (s : Str) : Str :=
  pyStrip (stripBlockComments (stripLineComments (pyStrip (pyUpper s))))

/-- The Validator: model of `is_read_only_query` from `src/utils/security.py`.
Returns `(is_valid, error_message)`.  The forbidden-keyword scan runs on the
uppercased stripped text (comments included); comments are stripped only for
the leading-SELECT check. -/
def is_read_only_query (s : Str) : Bool × Str :=
  if s = [] then (false, emptyQueryMsg)
  else
    match forbiddenKeywords.find? (fun k => occursWW k (pyStrip (pyUpper s))) with
    | some k => (false, securityAlertMsg k)
    | none =>
      if selectKw.isPrefixOf (commentFree s) then (true, [])
      else (false, onlySelectMsg)

/-! ## Pipeline Controller (`process_user_query` in `src/api/chat_routes.py`) -/

/-- The query plan produced by the planner collaborator (`query_info` in the
source): `sql_query` may be absent (Python `None`), `confidence` is a float
modelled as a rational, `reasoning` free text. -/
structure QueryInfo where
  sql_query : Option Str
  confidence : Rat
  reasoning : Str

/-- Outcome of calling an external collaborator: a value, or an exception
caught by the controller. -/
inductive Collab (A : Type) where
  | ok (a : A)
  | exn

/-- Observable outcome of one controller turn: the returned value (`none`
models the Python function falling through and returning `None`), plus flags
recording whether query execution was attempted, whether the answer compiler
was invoked, and whether the fallback agent was invoked. -/
structure PipeResult where
  answer : Option Str
  executed : Bool
  compilerInvoked : Bool
  fallbackInvoked : Bool
deriving DecidableEq

/-- Message asking the user to connect a database first. -/
def connectFirstMsg : Str := "Please connect to a database first.".toList

/-- Apology returned when an exception escapes to the outer handler. -/
def processingErrorMsg : Str :=
  "I encountered an error processing your question. Could you try rephrasing it?".toList

/-- The fixed no-results message (apostrophe spelled out). -/
def noResultsMsg : Str :=
  "I could not find any results matching your query. Could you try rephrasing or asking something else?".toList

/-- The generic please-clarify message for low but non-zero confidence
(apostrophes spelled out). -/
def notSureMsg : Str :=
  "I am not quite sure what you are asking for. Could you please provide more details or rephrase your question?".toList

/-- Wrapper the controller puts around a Validator rejection reason (mojibake
lock emoji rendered as `LOCK`). -/
def securityRejectWrap (reason : Str) : Str :=
  "LOCK ".toList ++ reason
    ++ "\n\nI can only help you **retrieve and analyze** data, not modify it. Please ask a question about viewing or analyzing your database information.".toList

/-- The read-only security notice built around the planner reasoning when a
zero-confidence plan carries modification intent. -/
def securityNoticeMsg (reasoning : Str) : Str :=
  "LOCK **Security Notice:** This chatbot is read-only and cannot modify database contents.\n\n".toList
    ++ reasoning
    ++ "\n\nI can help you view and analyze data. What would you like to know about your database?".toList

/-- The modification-intent keywords scanned for in the lowercased reasoning. -/
def modKeywords : List Str :=
  ["modify", "update", "delete", "insert", "change", "remove"].map String.toList

/-- Does the reasoning text contain a modification-intent keyword
(case-insensitively)? -/
def hasModIntent (reasoning : Str) : Bool :=
  modKeywords.any (fun k => containsSeq k (pyLower reasoning))

/-- The jargon rewriting applied to the reasoning before the clarification
request: `SQL query` to `search`, then `generate` to `find`, then
`database query` to `information`, in source order. -/
def cleanReasoning (r : Str) : Str :=
  replaceAll ("database query".toList) ("information".toList)
    (replaceAll ("generate".toList) ("find".toList)
      (replaceAll ("SQL query".toList) ("search".toList) r))

/-- Clarification request built from the rewritten reasoning. -/
def clarifyMsg (cleaned : Str) : Str :=
  "I apologize, but I need more information. ".toList ++ cleaned
    ++ "\n\nWhat would you like to know?".toList

/-- The confidence threshold `0.4` of the source, as a rational. -/
def confThreshold : Rat := mkRat 2 5

/-- Truthiness of `sql_query` in the source (`if sql_query:`): present and
non-empty. -/
def sqlTruthy (info : QueryInfo) : Bool := !(info.sql_query.getD []).isEmpty

/-- The low-confidence branch of the controller (the `else` of
`if sql_query and confidence > 0.4`).  Returns `none` exactly when the Python
code falls through without a `return` (confidence at or above `0.4`). -/
def lowConfReply (info : QueryInfo) : Option Str :=
  if info.confidence = 0 then
    if hasModIntent info.reasoning then some (securityNoticeMsg info.reasoning)
    else some (clarifyMsg (cleanReasoning info.reasoning))
  else if info.confidence < confThreshold then some notSureMsg
  else none

/-- Placeholder for the Normalizer until it is defined below; the executed
branch applies the answer compiler to the normalized result.  Forward
declaration realised by taking the normalizer as a parameter here and fixing
it in `process_user_query` once `clean_sql_results` exists. -/
def execOk (normalizer : Str → Str) (compile : Str → Str) (r : Str) : PipeResult :=
  if !r.isEmpty && !(pyStrip r).isEmpty && r ≠ ("[]".toList) then
    ⟨some (compile (normalizer r)), true, true, false⟩
  else ⟨some noResultsMsg, true, false, false⟩

/-- The branch of the controller that runs the executor: an executor
exception routes to the fallback agent; a result goes through the
empty-result check of `execOk`. -/
def execBranch (normalizer : Str → Str) (executor : Collab Str)
    (compile : Str → Str) (fallbackAnswer : Str) : PipeResult :=
  match executor with
  | Collab.exn => ⟨some fallbackAnswer, true, false, true⟩
  | Collab.ok r => execOk normalizer compile r

/-- Controller body relative to a normalizer, mirroring `process_user_query`
step by step: database check, planner call (exceptions anywhere inside the
`try` collapse to the apology), read-only validation of a truthy query,
confidence gate, execution with empty-result check, low-confidence replies. -/
def processWith (normalizer : Str → Str) (dbConnected : Bool)
    (planner : Collab QueryInfo) (executor : Collab Str)
    (compile : Str → Str) (fallbackAnswer : Str) : PipeResult :=
  if !dbConnected then ⟨some connectFirstMsg, false, false, false⟩
  else
    match planner with
    | Collab.exn => ⟨some processingErrorMsg, false, false, false⟩
    | Collab.ok info =>
      let afterVal : PipeResult :=
        if sqlTruthy info && decide (info.confidence > confThreshold) then
          execBranch normalizer executor compile fallbackAnswer
        else ⟨lowConfReply info, false, false, false⟩
      if sqlTruthy info then
        let v := is_read_only_query (info.sql_query.getD [])
        if v.1 then afterVal
        else ⟨some (securityRejectWrap v.2), false, false, false⟩
      else afterVal

/-! ## Result Normalizer (`clean_sql_results` in `src/utils/response_generator.py`) -/

/-- A character standing for a decimal digit value. -/
def digitChar (n : Nat) : Char := Char.ofNat (48 + n)

/-- Decimal digits of a natural number, most significant first. -/
def natDigitsGo : Nat → Nat → Str → Str
  | 0, _, acc => acc
  | fuel + 1, n, acc =>
    if n < 10 then digitChar n :: acc
    else natDigitsGo fuel (n / 10) (digitChar (n % 10) :: acc)

/-- Decimal digits of a natural number. -/
def natDigits (n : Nat) : Str := natDigitsGo (n + 1) n []

/-- Display of an integer cell: the source renders numeric cells through
`str(float(value))`, which for integers in the exactly representable range
prints the digits followed by `.0`; that range is the model. -/
def intDisplay (n : Int) : Str :=
  (if n < 0 then ['-'] else []) ++ natDigits n.natAbs ++ ['.', '0']

/-- Values `ast.literal_eval` can hand to the structured path.  `decv`
abstracts a `Decimal` cell by the display string `str(float(v))` the code
would print for it; `floatv` carries the literal text of a parsed float,
which equals `repr(float(...))` whenever the literal is already in the
canonical shortest form (as the dumps the executor produces are); `otherv`
abstracts any further value (dictionaries, sets) by its `str()` rendering.
No claim inspects the content of these display abstractions. -/
inductive PyVal where
  | intv (n : Int)
  | floatv (display : Str)
  | boolv (b : Bool)
  | decv (display : Str)
  | strv (s : Str)
  | bytesv (payload : List Nat)
  | nonev
  | tuplev (cells : List PyVal)
  | listv (items : List PyVal)
  | otherv (display : Str)

/-- Single or double quote, the regex class of quote characters. -/
def quoteLike (c : Char) : Bool := c == quoteC || c == '"'

/-- Hexadecimal digit character for a value below sixteen, lowercase as in
the repr of bytes. -/
def hexDigitChar (n : Nat) : Char :=
  if n < 10 then Char.ofNat (48 + n) else Char.ofNat (87 + n)

/-- How `str()`/`repr()` of a bytes object renders one byte: tab, newline,
carriage return, backslash and the single quote as two-character escapes,
other printable ASCII literally, everything else as a `\xHH` escape. -/
def byteEscape (b : Nat) : Str :=
  if b = 9 then [bslashC, 't']
  else if b = 10 then [bslashC, 'n']
  else if b = 13 then [bslashC, 'r']
  else if b = 92 then [bslashC, bslashC]
  else if b = 39 then [bslashC, quoteC]
  else if 32 ≤ b && b ≤ 126 then [Char.ofNat b]
  else [bslashC, 'x', hexDigitChar (b / 16 % 16), hexDigitChar (b % 16)]

mutual
/-- Model of Python `str(value)` for values reaching the catch-all branch of
the structured path: nested containers are rendered in literal shape and a
bytes value prints as `b` plus its quoted escaped payload.  Two documented
simplifications that no theorem touches: the string arm does not escape
special characters inside the quotes, and the single-quote delimiter is
used even for payloads containing a single quote (Python would switch to
double quotes there). -/
def pyStrVal : PyVal → Str
  | PyVal.intv n => (if n < 0 then ['-'] else []) ++ natDigits n.natAbs
  | PyVal.floatv d => d
  | PyVal.boolv b => if b then "True".toList else "False".toList
  | PyVal.decv d => d
  | PyVal.strv s => [quoteC] ++ s ++ [quoteC]
  | PyVal.bytesv payload => ['b', quoteC] ++ (payload.map byteEscape).flatten ++ [quoteC]
  | PyVal.nonev => "None".toList
  | PyVal.tuplev cs =>
    ['('] ++ pyStrList cs ++ (if cs.length = 1 then [','] else []) ++ [')']
  | PyVal.listv xs => ['['] ++ pyStrList xs ++ [']']
  | PyVal.otherv d => d

/-- Comma-separated renderings of a list of values. -/
def pyStrList : List PyVal → Str
  | [] => []
  | [v] => pyStrVal v
  | v :: rest => pyStrVal v ++ ", ".toList ++ pyStrList rest
end

/-- Model of `str.isupper`: at least one cased character and no lowercase
character (ASCII). -/
def pyIsUpper (s : Str) : Bool := s.any Char.isAlpha && s.all (fun c => !c.isLower)

/-- Model of `str.title`: a letter is uppercased when the previous character
is not a letter, lowercased otherwise; other characters pass through. -/
def pyTitleGo : Bool → Str → Str
  | _, [] => []
  | prevAlpha, c :: rest =>
    (if c.isAlpha then (if prevAlpha then c.toLower else c.toUpper) else c)
      :: pyTitleGo c.isAlpha rest

/-- Model of `str.title`. -/
def pyTitle (s : Str) : Str := pyTitleGo false s

/-- The redaction placeholder for binary cells. -/
def binPlaceholder : Str := "[Binary Data - Image/BLOB]".toList

/-- The source flags a string cell as encoded binary when it starts with the
three characters `b\x` or contains `\x` within its first twenty characters. -/
def binaryStrFlag (s : Str) : Bool :=
  (['b', bslashC, 'x'].isPrefixOf s) || containsSeq [bslashC, 'x'] (s.take 20)

/-- Per-cell cleaning of the structured path, in source branch order: bytes
become the placeholder; binary-flagged strings become the placeholder;
numeric cells (ints, floats, bools via `isinstance(value, (int, float))`,
and Decimals) print through `str(float(.))`; other strings are stripped and
title-cased exactly when they are all-uppercase with no `@` and no `http`
substring; `None` becomes `NULL`; anything else prints through `str()`. -/
def cellClean : PyVal → Str
  | PyVal.bytesv _ => binPlaceholder
  | PyVal.strv s =>
    if binaryStrFlag s then binPlaceholder
    else
      let c := pyStrip s
      if !(c.contains '@') && !(containsSeq ("http".toList) (pyLower c)) && pyIsUpper c
      then pyTitle c
      else c
  | PyVal.intv n => intDisplay n
  | PyVal.floatv d => d
  | PyVal.boolv b => if b then "1.0".toList else "0.0".toList
  | PyVal.decv d => d
  | PyVal.nonev => "NULL".toList
  | v => pyStrVal v

/-- A cleaned row: cells joined with the pipe separator. -/
def rowText (cells : List PyVal) : Str :=
  joinSep (" | ".toList) (cells.map cellClean)

/-- The rows the structured path emits: one per tuple item of the parsed
list, in order; non-tuple items are skipped by the source. -/
def structuredRows (items : List PyVal) : List Str :=
  items.filterMap (fun it =>
    match it with
    | PyVal.tuplev cells => some (rowText cells)
    | _ => none)

/-- Leftmost match of `Decimal\((['"])([^'"]+)(['"])\)` at the head of `l`:
the wrapper keyword, a quote, a non-empty quote-free content, a quote, a
closing parenthesis.  Returns the content and the remaining text. -/
def tryDecimalAt (l : Str) : Option (Str × Str) :=
  if ("Decimal(".toList).isPrefixOf l then
    match l.drop 8 with
    | q1 :: rest =>
      if quoteLike q1 then
        let content := rest.takeWhile (fun c => !quoteLike c)
        match rest.dropWhile (fun c => !quoteLike c) with
        | _ :: rest2 =>
          if !content.isEmpty then
            match rest2 with
            | ')' :: rest3 => some (content, rest3)
            | _ => none
          else none
        | [] => none
      else none
    | [] => none
  else none

/-- Scanner for `re.sub` of the Decimal-wrapper pattern, replacing each match
by its quoted content. -/
def decimalSubGo : Nat → Str → Str
  | 0, l => l
  | _ + 1, [] => []
  | fuel + 1, c :: rest =>
    match tryDecimalAt (c :: rest) with
    | some (content, rem) => content ++ decimalSubGo fuel rem
    | none => c :: decimalSubGo fuel rest

/-- Model of `re.sub(r"Decimal\((['\"])([^'\"]+)(['\"])\)", content, s)`. -/
def decimalSub (s : Str) : Str := decimalSubGo s.length s

/-- The post-processing the structured path applies to the joined rows:
Decimal unwrapping, then removal of `[(` and of `)]`. -/
def postClean (s : Str) : Str :=
  replaceAll (")]".toList) [] (replaceAll ("[(".toList) [] (decimalSub s))

/-- The structured path of `clean_sql_results` applied to an already parsed
value: rows for a list, nothing for any other shape, then post-processing. -/
def structuredClean (v : PyVal) : Str :=
  match v with
  | PyVal.listv items => postClean (joinSep ['\n'] (structuredRows items))
  | _ => postClean []

/-- `re.findall(r"\(([^)]+)\)", s)`: the contents of each non-overlapping
parenthesized group with non-empty parenthesis-free content. -/
def findTuplesGo : Nat → Str → List Str
  | 0, _ => []
  | _ + 1, [] => []
  | fuel + 1, c :: rest =>
    if c = '(' then
      match splitOnce [')'] rest with
      | some (before, after) =>
        if before.isEmpty then findTuplesGo fuel rest
        else before :: findTuplesGo fuel after
      | none => []
    else findTuplesGo fuel rest

/-- The tuple-group extraction of the fallback path. -/
def findTuples (s : Str) : List Str := findTuplesGo s.length s

/-- Scanner for `re.sub(r"'([^']+)'", content, s)`: strip quotes around each
non-empty quote-free run. -/
def quoteSubGo : Nat → Str → Str
  | 0, l => l
  | _ + 1, [] => []
  | fuel + 1, c :: rest =>
    if c == quoteC then
      match splitOnce [quoteC] rest with
      | some (content, after) =>
        if content.isEmpty then c :: quoteSubGo fuel rest
        else content ++ quoteSubGo fuel after
      | none => c :: quoteSubGo fuel rest
    else c :: quoteSubGo fuel rest

/-- The quote-stripping substitution of the fallback path. -/
def quoteSub (s : Str) : Str := quoteSubGo s.length s

/-- Scanner for `re.sub(r",\s*", " | ", s)`. -/
def commaSubGo : Nat → Str → Str
  | 0, l => l
  | _ + 1, [] => []
  | fuel + 1, c :: rest =>
    if c == ',' then " | ".toList ++ commaSubGo fuel (rest.dropWhile wsChar)
    else c :: commaSubGo fuel rest

/-- The comma-to-pipe substitution of the fallback path. -/
def commaSub (s : Str) : Str := commaSubGo s.length s

/-- Hexadecimal digit, the regex class `[0-9a-fA-F]`. -/
def hexDigit (c : Char) : Bool :=
  c.isDigit || (97 ≤ c.toNat && c.toNat ≤ 102) || (65 ≤ c.toNat && c.toNat ≤ 70)

/-- Scanner for `re.sub(r"\\x[0-9a-fA-F]{2}", "", s)`. -/
def hexSubGo : Nat → Str → Str
  | 0, l => l
  | _ + 1, [] => []
  | fuel + 1, c :: rest =>
    if c == bslashC then
      match rest with
      | x :: h1 :: h2 :: rest2 =>
        if x == 'x' && hexDigit h1 && hexDigit h2 then hexSubGo fuel rest2
        else c :: hexSubGo fuel rest
      | _ => c :: hexSubGo fuel rest
    else c :: hexSubGo fuel rest

/-- The hex-escape removal closing the fallback path. -/
def hexSub (s : Str) : Str := hexSubGo s.length s

/-- Word-boundary condition to the right of an uppercase run. -/
def notWordAtHead (l : Str) : Bool :=
  match l with
  | [] => true
  | d :: _ => !wordChar d

/-- Scanner for `re.sub(r"\b[A-Z]{2,}\b", f, s)`: a maximal uppercase run of
length at least two, bounded by non-word characters, is replaced by `f`
applied to it (here: kept when `guard` holds, title-cased otherwise);
scanning resumes after the run. -/
def capsGo (guard : Str → Bool) : Nat → Bool → Str → Str
  | 0, _, l => l
  | _ + 1, _, [] => []
  | fuel + 1, prevWord, c :: rest =>
    if !prevWord && c.isUpper then
      let run := (c :: rest).takeWhile Char.isUpper
      let after := (c :: rest).dropWhile Char.isUpper
      if 2 ≤ run.length && notWordAtHead after then
        (if guard run then run else pyTitle run) ++ capsGo guard fuel true after
      else c :: capsGo guard fuel (wordChar c) rest
    else c :: capsGo guard fuel (wordChar c) rest

/-- The unconditional title-casing of uppercase runs (single-row branch of
the fallback path). -/
def capsSubPlain (s : Str) : Str := capsGo (fun _ => false) s.length false s

/-- The per-row guard of the multi-row branch: keep the run when it contains
`@` or its lowercase form contains `http`. -/
def guardEmail (run : Str) : Bool :=
  run.contains '@' || containsSeq ("http".toList) (pyLower run)

/-- The guarded title-casing of uppercase runs (multi-row branch). -/
def capsSubGuard (s : Str) : Str := capsGo guardEmail s.length false s

/-- The binary-redaction marker appended by the fallback path. -/
def binRemovedMsg : Str := " | [Binary Data - Image/BLOB removed]".toList

/-- The fallback path of `clean_sql_results`, entered when the literal parse
fails: binary truncation, Decimal unwrapping, then either a per-tuple row
rebuild (two or more parenthesized groups) or a single-row cleanup, and a
final hex-escape sweep. -/
def fallbackClean (s : Str) : Str :=
  let s1 :=
    if containsSeq ['b', bslashC, 'x'] s
        || containsSeq [bslashC, 'x', '8', '9', 'P', 'N', 'G'] s then
      let p1 :=
        if containsSeq ['b', quoteC] s then
          match splitOnce ['b', quoteC] s with
          | some pr => pr.1
          | none => s
        else s
      let p2 :=
        if containsSeq ['b', bslashC, 'x'] p1 then
          match splitOnce ['b', bslashC, 'x'] p1 with
          | some pr => pr.1
          | none => p1
        else p1
      p2 ++ binRemovedMsg
    else s
  let cleaned := decimalSub s1
  let tuples := findTuples cleaned
  if 2 ≤ tuples.length then
    hexSub (joinSep ['\n']
      (tuples.map (fun t => commaSub (capsSubGuard (quoteSub t)))))
  else
    hexSub (commaSub (capsSubPlain (quoteSub
      (List.filter (fun c => !(c == '[' || c == ']' || c == '(' || c == ')'))
        (replaceAll (")]".toList) [] (replaceAll ("[(".toList) [] cleaned))))))

/-- Skip whitespace between literal tokens. -/
def skipWS (l : Str) : Str := l.dropWhile wsChar

/-- Digits to a natural number, most significant first. -/
def digitsToNat (ds : Str) : Nat := ds.foldl (fun acc c => acc * 10 + (c.toNat - 48)) 0

/-- Value of a hexadecimal digit character. -/
def hexVal (c : Char) : Nat :=
  if c.isDigit then c.toNat - 48
  else if 97 ≤ c.toNat then c.toNat - 87
  else c.toNat - 55

/-- Numeric literal after an optional minus sign: a digit run, continued by
`.` and a fractional digit run into a float (whose display keeps the literal
text), otherwise an integer.  Exponent notation, underscore separators and
base prefixes are outside the modelled fragment (the theorems quantifying
over the parse restrict to letter-led inputs where this cannot matter). -/
def parseNumTail (neg : Bool) (l : Str) : Option (PyVal × Str) :=
  let ds := l.takeWhile Char.isDigit
  if ds.isEmpty then none
  else
    let rest := l.dropWhile Char.isDigit
    match rest with
    | '.' :: rest2 =>
      let fs := rest2.takeWhile Char.isDigit
      let rest3 := rest2.dropWhile Char.isDigit
      some (PyVal.floatv ((if neg then ['-'] else []) ++ ds ++ ['.'] ++ fs), rest3)
    | _ => some (PyVal.intv (if neg then -(digitsToNat ds : Int) else (digitsToNat ds : Int)), rest)

/-- Body of a bytes literal after `b` and the opening quote `q`: literal
ASCII characters and the escapes the repr of bytes uses (`\xHH`, `\n`, `\t`,
`\r`, `\\`, quotes), collected as byte values. -/
def parseBytesBody : Nat → Char → Str → List Nat → Option (List Nat × Str)
  | 0, _, _, _ => none
  | fuel + 1, q, l, acc =>
    match l with
    | [] => none
    | c :: rest =>
      if c == q then some (acc.reverse, rest)
      else if c == bslashC then
        match rest with
        | e :: rest2 =>
          if e == 'x' then
            match rest2 with
            | h1 :: h2 :: rest3 =>
              if hexDigit h1 && hexDigit h2 then
                parseBytesBody fuel q rest3 ((hexVal h1 * 16 + hexVal h2) :: acc)
              else none
            | _ => none
          else if e == 'n' then parseBytesBody fuel q rest2 (10 :: acc)
          else if e == 't' then parseBytesBody fuel q rest2 (9 :: acc)
          else if e == 'r' then parseBytesBody fuel q rest2 (13 :: acc)
          else if e == bslashC then parseBytesBody fuel q rest2 (92 :: acc)
          else if quoteLike e then parseBytesBody fuel q rest2 (e.toNat :: acc)
          else none
        | [] => none
      else parseBytesBody fuel q rest (c.toNat :: acc)

mutual
/-- Recursive-descent model of `ast.literal_eval` on the executor-output
fragment: list and tuple literals (with optional trailing comma and with a
single parenthesized value read as that value), quoted strings with the
common escapes, bytes literals, decimal integers and simple floats with
optional minus sign, the booleans and `None`.  Fuelled; anything outside the
fragment fails, as does everything `literal_eval` raises on.  On letter-led
quote-free inputs (the domain of the idempotence theorem) this model agrees
exactly with `literal_eval`: both accept only `None`, `True` and `False`. -/
def parseVal : Nat → Str → Option (PyVal × Str)
  | 0, _ => none
  | fuel + 1, l =>
    match l with
    | '[' :: rest =>
      (parseSeq fuel (skipWS rest) ']' []).map (fun pr => (PyVal.listv pr.1, pr.2))
    | '(' :: rest => parseParen fuel (skipWS rest)
    | 'N' :: 'o' :: 'n' :: 'e' :: rest => some (PyVal.nonev, rest)
    | 'T' :: 'r' :: 'u' :: 'e' :: rest => some (PyVal.boolv true, rest)
    | 'F' :: 'a' :: 'l' :: 's' :: 'e' :: rest => some (PyVal.boolv false, rest)
    | 'b' :: rest =>
      match rest with
      | q :: rest2 =>
        if quoteLike q then
          (parseBytesBody fuel q rest2 []).map (fun pr => (PyVal.bytesv pr.1, pr.2))
        else none
      | [] => none
    | '-' :: rest => parseNumTail true rest
    | c :: rest =>
      if quoteLike c then
        (parseStrBody fuel c rest []).map (fun pr => (PyVal.strv pr.1, pr.2))
      else if c.isDigit then parseNumTail false (c :: rest)
      else none
    | [] => none

/-- Inside parentheses: empty tuple, a parenthesized single value, or a
tuple of comma-separated values. -/
def parseParen : Nat → Str → Option (PyVal × Str)
  | 0, _ => none
  | fuel + 1, l =>
    match l with
    | ')' :: rest => some (PyVal.tuplev [], rest)
    | _ =>
      match parseVal fuel l with
      | none => none
      | some (v, r) =>
        match skipWS r with
        | ')' :: rest => some (v, rest)
        | ',' :: rest =>
          (parseSeq fuel (skipWS rest) ')' [v]).map (fun pr => (PyVal.tuplev pr.1, pr.2))
        | _ => none

/-- Comma-separated values up to a closing bracket, allowing a trailing
comma; `acc` holds the values read so far, in reverse. -/
def parseSeq : Nat → Str → Char → List PyVal → Option (List PyVal × Str)
  | 0, _, _, _ => none
  | fuel + 1, l, closeCh, acc =>
    match l with
    | c :: _ =>
      if c == closeCh then some (acc.reverse, l.tail)
      else
        match parseVal fuel l with
        | none => none
        | some (v, r) =>
          match skipWS r with
          | ',' :: rest2 => parseSeq fuel (skipWS rest2) closeCh (v :: acc)
          | c2 :: rest2 => if c2 == closeCh then some ((v :: acc).reverse, rest2) else none
          | [] => none
    | [] => none

/-- Body of a quoted string literal after the opening quote `q`, with the
escapes the executor output uses. -/
def parseStrBody : Nat → Char → Str → Str → Option (Str × Str)
  | 0, _, _, _ => none
  | fuel + 1, q, l, acc =>
    match l with
    | [] => none
    | c :: rest =>
      if c == q then some (acc.reverse, rest)
      else if c == bslashC then
        match rest with
        | e :: rest2 =>
          if e == 'n' then parseStrBody fuel q rest2 ('\n' :: acc)
          else if e == 't' then parseStrBody fuel q rest2 ('\t' :: acc)
          else if e == 'r' then parseStrBody fuel q rest2 ('\r' :: acc)
          else if e == bslashC then parseStrBody fuel q rest2 (bslashC :: acc)
          else if quoteLike e then parseStrBody fuel q rest2 (e :: acc)
          else none
        | [] => none
      else parseStrBody fuel q rest (c :: acc)
end

/-- Model of `ast.literal_eval(s)` on the supported fragment: the whole
input, up to surrounding whitespace, must be one literal. -/
def parseLit (s : Str) : Option PyVal :=
  match parseVal (2 * s.length + 4) (skipWS s) with
  | some (v, rest) => if (skipWS rest).isEmpty then some v else none
  | none => none

/-- The Normalizer: model of `clean_sql_results`.  The structured path runs
on a successful literal parse; any parse failure takes the regex fallback
path. -/
def clean_sql_results (s : Str) : Str :=
  match parseLit s with
  | some v => structuredClean v
  | none => fallbackClean s

/-- The Pipeline Controller: model of `process_user_query` from
`src/api/chat_routes.py`, with the Normalizer plugged into the executed
branch. -/
def process_user_query (dbConnected : Bool) (planner : Collab QueryInfo)
    (executor : Collab Str) (compile : Str → Str) (fallbackAnswer : Str) :
    PipeResult :=
  processWith clean_sql_results dbConnected planner executor compile fallbackAnswer

/-- The raw result of end-to-end scenario C of the specification, the
fourteen characters of a two-row one-column dump written with explicit
quote characters. -/
def rawHorror : Str :=
  ['[', '('] ++ [quoteC] ++ "HORROR".toList ++ [quoteC] ++ ",), (".toList
    ++ [quoteC] ++ "ACTION".toList ++ [quoteC] ++ ",)]".toList

/-- Is a parsed value a tuple (a row the structured path keeps)? -/
def isTupleVal : PyVal → Bool
  | PyVal.tuplev _ => true
  | _ => false

/-- Replace the payload of a bytes cell, leave every other value alone. -/
def mapCellBytes (f : List Nat → List Nat) : PyVal → PyVal
  | PyVal.bytesv b => PyVal.bytesv (f b)
  | v => v

/-- Replace the payloads of all bytes cells of a row. -/
def mapRowBytes (f : List Nat → List Nat) : PyVal → PyVal
  | PyVal.tuplev cells => PyVal.tuplev (cells.map (mapCellBytes f))
  | v => v

/-- Container punctuation: brackets and parentheses. -/
def bracketChar (c : Char) : Bool := c == '[' || c == ']' || c == '(' || c == ')'

/-- An atomic cell whose own content carries no container punctuation and is
not flagged as encoded binary. -/
def cellFlatNoBracket : PyVal → Bool
  | PyVal.intv _ => true
  | PyVal.decv d => d.all (fun c => !bracketChar c)
  | PyVal.strv s => s.all (fun c => !bracketChar c) && !binaryStrFlag s
  | PyVal.nonev => true
  | _ => false

/-- A row of atomic, punctuation-free, non-binary cells. -/
def rowFlatNoBracket : PyVal → Bool
  | PyVal.tuplev cells => cells.all cellFlatNoBracket
  | _ => false

/-- Characters whose absence makes the fallback path inert and keeps the
text out of the bracketed-or-quoted part of the literal grammar: container
punctuation (including braces), both quotes, the backslash and the comma. -/
def bannedDisplayChar (c : Char) : Bool :=
  c == '[' || c == ']' || c == '(' || c == ')' || c == '{' || c == '}'
    || c == quoteC || c == '"' || c == bslashC || c == ','

/-- No two adjacent uppercase letters, so the uppercase-run title-casing
finds nothing to rewrite. -/
def noTwoAdjUpper : Str → Bool
  | [] => true
  | [_] => true
  | a :: b :: rest => !(a.isUpper && b.isUpper) && noTwoAdjUpper (b :: rest)

/-- The first character after leading whitespace is an ASCII letter.  A
quote-free text of this shape is accepted by `ast.literal_eval` exactly
when it is `None`, `True` or `False` (every other letter-led quote-free
expression is a bare name or invalid), and `parseLit` agrees on that
domain. -/
def headAlpha (s : Str) : Bool :=
  match s.dropWhile wsChar with
  | [] => false
  | c :: _ => c.isAlpha

/-- Clean display text: letter-led, none of the characters any
fallback-path stage rewrites, and no adjacent uppercase pair. -/
def isCleanDisplay (s : Str) : Bool :=
  headAlpha s && s.all (fun c => !bannedDisplayChar c) && noTwoAdjUpper s

/-! ## Validator lemmas -/

theorem ws_not_alpha (c : Char) (h : wsChar c = true) : c.isAlpha = false := by
  simp only [wsChar, Char.isWhitespace, Bool.or_eq_true, decide_eq_true_eq] at h
  rcases h with ((h | h) | h) | h <;> subst h <;> decide

theorem ws_not_word (c : Char) (h : wsChar c = true) : wordChar c = false := by
  simp only [wsChar, Char.isWhitespace, Bool.or_eq_true, decide_eq_true_eq] at h
  rcases h with ((h | h) | h) | h <;> subst h <;> decide

theorem isPrefixOf_ws_head (kw : Str) (hne : kw ≠ []) (ha : kw.all Char.isAlpha = true)
    (c : Char) (hc : wsChar c = true) (rest : Str) :
    kw.isPrefixOf (c :: rest) = false := by
  match kw, hne with
  | k :: ks, _ =>
    simp only [List.all_cons, Bool.and_eq_true] at ha
    simp only [List.isPrefixOf]
    have hkc : (k == c) = false := by
      refine beq_eq_false_iff_ne.mpr ?_
      intro he
      rw [he, ws_not_alpha c hc] at ha
      exact Bool.false_ne_true ha.1
    rw [hkc]
    rfl

theorem scanWW_stripLead (kw : Str) (hne : kw ≠ []) (ha : kw.all Char.isAlpha = true) :
    ∀ l : Str, scanWW kw (l.dropWhile wsChar) false = scanWW kw l false := by
  intro l
  induction l with
  | nil => rfl
  | cons c rest ih =>
    by_cases hc : wsChar c = true
    · rw [List.dropWhile_cons_of_pos hc]
      have hstep : scanWW kw (c :: rest) false = scanWW kw rest false := by
        simp [scanWW, isPrefixOf_ws_head kw hne ha c hc rest, ws_not_word c hc]
      rw [hstep]
      exact ih
    · rw [List.dropWhile_cons_of_neg (by simpa using hc)]

theorem scanWW_allWS (kw : Str) (hne : kw ≠ []) (ha : kw.all Char.isAlpha = true) :
    ∀ ws : Str, ws.all wsChar = true → ∀ p : Bool, scanWW kw ws p = false := by
  intro ws
  induction ws with
  | nil => intro _ p; rfl
  | cons w rest ih =>
    intro hall p
    simp only [List.all_cons, Bool.and_eq_true] at hall
    simp [scanWW, isPrefixOf_ws_head kw hne ha w hall.1 rest, ih hall.2]

theorem isPrefixOf_append_allWS :
    ∀ kw : Str, kw.all Char.isAlpha = true → ∀ ws : Str, ws.all wsChar = true →
      ∀ x : Str, kw.isPrefixOf (x ++ ws) = kw.isPrefixOf x := by
  intro kw
  induction kw with
  | nil => intro _ ws _ x; simp [List.isPrefixOf]
  | cons k ks ih =>
    intro ha ws hws x
    have ha2 := ha
    simp only [List.all_cons, Bool.and_eq_true] at ha2
    cases x with
    | nil =>
      simp only [List.nil_append]
      cases ws with
      | nil => rfl
      | cons w rest =>
        have hw : wsChar w = true := by
          simp only [List.all_cons, Bool.and_eq_true] at hws
          exact hws.1
        rw [isPrefixOf_ws_head (k :: ks) (by simp) ha w hw rest]
        rfl
    | cons a xs =>
      simp only [List.cons_append, List.isPrefixOf, List.append_eq]
      rw [ih ha2.2 ws hws xs]

theorem length_le_of_isPrefixOf {kw x : Str} (h : kw.isPrefixOf x = true) :
    kw.length ≤ x.length :=
  (List.isPrefixOf_iff_prefix.mp h).length_le

theorem boundaryAfter_append_allWS (kw : Str) (ws : Str) (hws : ws.all wsChar = true)
    (x : Str) (hlen : kw.length ≤ x.length) :
    boundaryAfter kw (x ++ ws) = boundaryAfter kw x := by
  unfold boundaryAfter
  rw [List.drop_append_of_le_length hlen]
  cases hx : x.drop kw.length with
  | nil =>
    simp only [List.nil_append]
    cases ws with
    | nil => rfl
    | cons w r =>
      have hw : wsChar w = true := by
        simp only [List.all_cons, Bool.and_eq_true] at hws
        exact hws.1
      simp [ws_not_word w hw]
  | cons d ds => simp

theorem scanWW_append_allWS (kw : Str) (hne : kw ≠ []) (ha : kw.all Char.isAlpha = true)
    (ws : Str) (hws : ws.all wsChar = true) :
    ∀ (l : Str) (p : Bool), scanWW kw (l ++ ws) p = scanWW kw l p := by
  intro l
  induction l with
  | nil =>
    intro p
    simpa using scanWW_allWS kw hne ha ws hws p
  | cons c rest ih =>
    intro p
    show scanWW kw (c :: (rest ++ ws)) p = scanWW kw (c :: rest) p
    simp only [scanWW]
    rw [ih (wordChar c)]
    have hpref : kw.isPrefixOf (c :: (rest ++ ws)) = kw.isPrefixOf (c :: rest) := by
      have h := isPrefixOf_append_allWS kw ha ws hws (c :: rest)
      simpa using h
    rw [hpref]
    by_cases hp : kw.isPrefixOf (c :: rest) = true
    · have hlen := length_le_of_isPrefixOf hp
      have hbd : boundaryAfter kw (c :: (rest ++ ws)) = boundaryAfter kw (c :: rest) := by
        have h := boundaryAfter_append_allWS kw ws hws (c :: rest) hlen
        simpa using h
      rw [hbd]
    · rw [Bool.not_eq_true] at hp
      rw [hp]
      simp

theorem stripTrail_decomp (l : Str) :
    ∃ ws : Str, ws.all wsChar = true ∧ l = stripTrail l ++ ws := by
  refine ⟨(l.reverse.takeWhile wsChar).reverse, ?_, ?_⟩
  · rw [List.all_reverse]
    rw [List.all_eq_true]
    exact fun x hx => List.mem_takeWhile_imp hx
  · unfold stripTrail
    conv_lhs => rw [← l.reverse_reverse, ← List.takeWhile_append_dropWhile wsChar l.reverse]
    rw [List.reverse_append]

theorem occursWW_pyStrip (kw : Str) (hne : kw ≠ []) (ha : kw.all Char.isAlpha = true)
    (l : Str) : occursWW kw (pyStrip l) = occursWW kw l := by
  unfold occursWW pyStrip stripLead
  rw [← scanWW_stripLead kw hne ha l]
  obtain ⟨ws, hws, hdecomp⟩ := stripTrail_decomp (l.dropWhile wsChar)
  conv_rhs => rw [hdecomp]
  rw [scanWW_append_allWS kw hne ha ws hws]

theorem forbidden_all_alpha :
    ∀ k ∈ forbiddenKeywords, k ≠ [] ∧ k.all Char.isAlpha = true := by decide

/-! ## Claims about the Validator -/

/-- Claim C2: any of the sixteen denylisted keywords occurring as a whole
word in the query text, in any case, makes `is_read_only_query` reject with
a reason naming a denylisted keyword that does occur as a whole word (the
first in list order); and a keyword occurring only inside an identifier does
not trigger the scan, so `SELECT deleted_at FROM t` is accepted. -/
theorem c2_whole_word_denylist :
    (∀ s k : Str, k ∈ forbiddenKeywords → occursWW k (pyUpper s) = true →
      (is_read_only_query s).1 = false ∧
        ∃ k2, k2 ∈ forbiddenKeywords ∧ occursWW k2 (pyUpper s) = true ∧
          (is_read_only_query s).2 = securityAlertMsg k2) ∧
    is_read_only_query ("SELECT deleted_at FROM t".toList) = (true, []) := by
  constructor
  · intro s k hk hocc
    obtain ⟨hne, ha⟩ := forbidden_all_alpha k hk
    have hs : s ≠ [] := by
      intro h
      subst h
      simp [pyUpper, occursWW, scanWW] at hocc
    have hstrip : occursWW k (pyStrip (pyUpper s)) = true := by
      rw [occursWW_pyStrip k hne ha]
      exact hocc
    have hfind : forbiddenKeywords.find? (fun k0 => occursWW k0 (pyStrip (pyUpper s))) ≠ none := by
      intro hnone
      rw [List.find?_eq_none] at hnone
      exact absurd hstrip (by simpa using hnone k hk)
    obtain ⟨k2, hk2⟩ := Option.ne_none_iff_exists'.mp hfind
    have hk2mem := List.mem_of_find?_eq_some hk2
    obtain ⟨hne2, ha2⟩ := forbidden_all_alpha k2 hk2mem
    have hk2occ0 := List.find?_some hk2
    have hk2occ : occursWW k2 (pyStrip (pyUpper s)) = true := hk2occ0
    unfold is_read_only_query
    rw [if_neg hs, hk2]
    refine ⟨rfl, k2, hk2mem, ?_, rfl⟩
    rw [← occursWW_pyStrip k2 hne2 ha2]
    exact hk2occ
  · decide

/-- Witness for C2 at a concrete input: the lowercase query
`drop table x` contains DROP as a whole word and is rejected. -/
theorem c2_witness : (is_read_only_query ("drop table x".toList)).1 = false :=
  (c2_whole_word_denylist.1 ("drop table x".toList) ("DROP".toList)
    (by decide) (by decide)).1

/-- Claim C3 counterexample: the claim says a denylisted keyword appearing
only inside a comment does not cause rejection and `SELECT 1 -- DROP` is
accepted; the Validator in the source scans the text before stripping
comments, so this query is rejected with the DROP alert. -/
theorem c3_counterexample :
    is_read_only_query ("SELECT 1 -- DROP".toList)
      = (false, securityAlertMsg ("DROP".toList)) := by decide

/-- Claim C3 as amended: comments are stripped only for the leading-SELECT
check; the forbidden-keyword scan runs on the full uppercased text including
comments, so acceptance guarantees that no denylisted keyword occurs as a
whole word anywhere in the text, comments included, and a keyword hidden in
a comment does cause rejection (`SELECT 1 -- DROP` is rejected). -/
theorem c3_keyword_scan_sees_comments :
    (∀ s : Str, (is_read_only_query s).1 = true →
      ∀ k ∈ forbiddenKeywords, occursWW k (pyUpper s) = false) ∧
    (is_read_only_query ("SELECT 1 -- DROP".toList)).1 = false := by
  constructor
  · intro s hacc k hk
    obtain ⟨hne, ha⟩ := forbidden_all_alpha k hk
    unfold is_read_only_query at hacc
    by_cases hs : s = []
    · rw [if_pos hs] at hacc
      simp at hacc
    · rw [if_neg hs] at hacc
      cases hfind : forbiddenKeywords.find? (fun k0 => occursWW k0 (pyStrip (pyUpper s))) with
      | some k0 =>
        rw [hfind] at hacc
        simp at hacc
      | none =>
        have hnone := List.find?_eq_none.mp hfind k hk
        rw [← occursWW_pyStrip k hne ha]
        simpa using hnone
  · decide

/-- Witness for C3 at a concrete input: the accepted query `SELECT 1`
contains no whole-word DROP. -/
theorem c3_witness : occursWW ("DROP".toList) (pyUpper ("SELECT 1".toList)) = false :=
  c3_keyword_scan_sees_comments.1 ("SELECT 1".toList) (by decide)
    ("DROP".toList) (by decide)

/-- Claim C4: `is_read_only_query` accepts only when the uppercased text,
after line- and block-comment stripping and trimming, begins with SELECT;
whenever it does not (empty input included), the query is rejected with a
non-empty reason. -/
theorem c4_select_gate : ∀ s : Str,
    ((is_read_only_query s).1 = true → selectKw.isPrefixOf (commentFree s) = true) ∧
    (selectKw.isPrefixOf (commentFree s) = false →
      (is_read_only_query s).1 = false ∧ (is_read_only_query s).2 ≠ []) := by
  intro s
  constructor
  · intro hacc
    unfold is_read_only_query at hacc
    by_cases hs : s = []
    · rw [if_pos hs] at hacc
      simp at hacc
    · rw [if_neg hs] at hacc
      cases hfind : forbiddenKeywords.find? (fun k0 => occursWW k0 (pyStrip (pyUpper s))) with
      | some k0 =>
        rw [hfind] at hacc
        simp at hacc
      | none =>
        rw [hfind] at hacc
        by_cases hsel : selectKw.isPrefixOf (commentFree s) = true
        · exact hsel
        · rw [if_neg hsel] at hacc
          simp at hacc
  · intro hnsel
    unfold is_read_only_query
    by_cases hs : s = []
    · rw [if_pos hs]
      exact ⟨rfl, by decide⟩
    · rw [if_neg hs]
      cases hfind : forbiddenKeywords.find? (fun k0 => occursWW k0 (pyStrip (pyUpper s))) with
      | some k0 =>
        refine ⟨rfl, ?_⟩
        show securityAlertMsg k0 ≠ []
        unfold securityAlertMsg
        exact List.append_ne_nil_of_left_ne_nil
          (List.append_ne_nil_of_left_ne_nil (by decide) _) _
      | none =>
        rw [if_neg (by simp [hnsel])]
        exact ⟨rfl, by decide⟩

/-- Witness for C4 at concrete inputs: the accepted `SELECT 2` does start
with SELECT after comment stripping, and the CTE `WITH T AS SELECT 1` is
rejected with a non-empty reason. -/
theorem c4_witness :
    selectKw.isPrefixOf (commentFree ("SELECT 2".toList)) = true ∧
    (is_read_only_query ("WITH T AS SELECT 1".toList)).1 = false ∧
    (is_read_only_query ("WITH T AS SELECT 1".toList)).2 ≠ [] :=
  ⟨(c4_select_gate ("SELECT 2".toList)).1 (by decide),
   (c4_select_gate ("WITH T AS SELECT 1".toList)).2 (by decide)⟩

/-! ## Claims about the Pipeline Controller -/

theorem execBranch_executed (normalizer : Str → Str) (executor : Collab Str)
    (compile : Str → Str) (fallbackAnswer : Str) :
    (execBranch normalizer executor compile fallbackAnswer).executed = true := by
  cases executor with
  | exn => rfl
  | ok r =>
    show (execOk normalizer compile r).executed = true
    unfold execOk
    split
    · rfl
    · rfl

theorem isEmpty_false_of_ne_nil {q : Str} (h : q ≠ []) : q.isEmpty = false := by
  cases q with
  | nil => exact absurd rfl h
  | cons a l => rfl

/-- Reduction of the controller for a connected database, a successful
planner call and a plan whose truthy query passes validation: what remains
is exactly the confidence gate. -/
theorem processWith_validated (normalizer : Str → Str) (info : QueryInfo)
    (executor : Collab Str) (compile : Str → Str) (fallbackAnswer : Str)
    (q : Str) (hq : info.sql_query = some q) (hne : q ≠ [])
    (hacc : (is_read_only_query q).1 = true) :
    processWith normalizer true (Collab.ok info) executor compile fallbackAnswer
      = if decide (info.confidence > confThreshold)
        then execBranch normalizer executor compile fallbackAnswer
        else ⟨lowConfReply info, false, false, false⟩ := by
  have htruthy : sqlTruthy info = true := by
    unfold sqlTruthy
    rw [hq]
    simp [isEmpty_false_of_ne_nil hne]
  unfold processWith
  simp only [Bool.not_true, Bool.false_eq_true, if_false, htruthy, Bool.true_and, hq,
    Option.getD_some, hacc, if_true]

/-- Reduction of the controller when the plan carries a truthy query that
the Validator rejects. -/
theorem processWith_rejected (normalizer : Str → Str) (info : QueryInfo)
    (executor : Collab Str) (compile : Str → Str) (fallbackAnswer : Str)
    (q : Str) (hq : info.sql_query = some q) (hne : q ≠ [])
    (hrej : (is_read_only_query q).1 = false) :
    processWith normalizer true (Collab.ok info) executor compile fallbackAnswer
      = ⟨some (securityRejectWrap (is_read_only_query q).2), false, false, false⟩ := by
  have htruthy : sqlTruthy info = true := by
    unfold sqlTruthy
    rw [hq]
    simp [isEmpty_false_of_ne_nil hne]
  unfold processWith
  simp only [Bool.not_true, Bool.false_eq_true, if_false, htruthy, Bool.true_and, hq,
    Option.getD_some, hrej, if_true]

/-- Claim C1 counterexample: the claim quantifies over every non-null
query text, but for the non-null empty string the Validator rejects
(reason `Empty query`) while the controller, which tests truthiness rather
than nullness, skips validation and answers with the generic please-clarify
message instead of the security notice. -/
theorem c1_counterexample :
    (is_read_only_query []).1 = false ∧
    (process_user_query true (Collab.ok ⟨some [], mkRat 1 5, []⟩)
        (Collab.ok []) id []).answer = some notSureMsg ∧
    some notSureMsg ≠ some (securityRejectWrap (is_read_only_query []).2) :=
  ⟨by decide, by decide, by decide⟩

/-- Claim C1 as amended: for every plan whose query text is non-null and
non-empty, a Validator rejection short-circuits to the fixed security-notice
wrapper around the rejection reason, with no execution attempt, no answer
compilation and no fallback, regardless of the confidence value. -/
theorem c1_rejected_short_circuits :
    ∀ (info : QueryInfo) (executor : Collab Str) (compile : Str → Str)
      (fallbackAnswer : Str) (q : Str),
      info.sql_query = some q → q ≠ [] → (is_read_only_query q).1 = false →
      process_user_query true (Collab.ok info) executor compile fallbackAnswer
        = ⟨some (securityRejectWrap (is_read_only_query q).2), false, false, false⟩ := by
  intro info executor compile fb q hq hne hrej
  exact processWith_rejected clean_sql_results info executor compile fb q hq hne hrej

/-- Witness for C1 at a concrete input: a DROP statement with high
confidence is rejected and the controller returns the wrapped alert without
executing. -/
theorem c1_witness :
    process_user_query true
        (Collab.ok ⟨some ("DROP TABLE users".toList), mkRat 9 10, []⟩)
        (Collab.ok []) id []
      = ⟨some (securityRejectWrap (is_read_only_query ("DROP TABLE users".toList)).2),
         false, false, false⟩ :=
  c1_rejected_short_circuits _ _ _ _ ("DROP TABLE users".toList) rfl (by decide) (by decide)

/-- Claim C5 counterexample: the claim says every validated plan with
confidence in (0, 0.4] gets the generic please-clarify message; at
confidence exactly 0.4 the controller takes neither the execution branch
(0.4 is not greater than 0.4) nor any message branch (the low-confidence
arm only answers for confidence strictly below 0.4), so it falls through
and returns Python `None`. -/
theorem c5_counterexample :
    process_user_query true (Collab.ok ⟨some ("SELECT 1".toList), confThreshold, []⟩)
        (Collab.ok ("x".toList)) id [] = ⟨none, false, false, false⟩ ∧
    (none : Option Str) ≠ some notSureMsg :=
  ⟨by decide, by decide⟩

/-- Claim C5 as amended: for every validated plan, execution is attempted
exactly when confidence exceeds 0.4; confidence 0 with a modification-intent
keyword in the reasoning yields the read-only security notice; confidence 0
otherwise yields the clarification built from the jargon-rewritten
reasoning; confidence strictly between 0 and 0.4 yields the generic
please-clarify message; and at confidence exactly 0.4 the controller
returns no message at all (Python `None`). -/
theorem c5_confidence_gate :
    ∀ (info : QueryInfo) (executor : Collab Str) (compile : Str → Str)
      (fallbackAnswer : Str) (q : Str),
      info.sql_query = some q → q ≠ [] → (is_read_only_query q).1 = true →
      ((process_user_query true (Collab.ok info) executor compile fallbackAnswer).executed = true
          ↔ info.confidence > confThreshold) ∧
      (info.confidence = 0 → hasModIntent info.reasoning = true →
        (process_user_query true (Collab.ok info) executor compile fallbackAnswer).answer
          = some (securityNoticeMsg info.reasoning)) ∧
      (info.confidence = 0 → hasModIntent info.reasoning = false →
        (process_user_query true (Collab.ok info) executor compile fallbackAnswer).answer
          = some (clarifyMsg (cleanReasoning info.reasoning))) ∧
      (0 < info.confidence → info.confidence < confThreshold →
        (process_user_query true (Collab.ok info) executor compile fallbackAnswer).answer
          = some notSureMsg) ∧
      (info.confidence = confThreshold →
        (process_user_query true (Collab.ok info) executor compile fallbackAnswer).answer
          = none) := by
  intro info executor compile fb q hq hne hacc
  have hred := processWith_validated clean_sql_results info executor compile fb q hq hne hacc
  have hred2 : process_user_query true (Collab.ok info) executor compile fb
      = if decide (info.confidence > confThreshold)
        then execBranch clean_sql_results executor compile fb
        else ⟨lowConfReply info, false, false, false⟩ := hred
  refine ⟨?_, ?_, ?_, ?_, ?_⟩
  · rw [hred2]
    by_cases hc : info.confidence > confThreshold
    · simp [hc, execBranch_executed]
    · simp [hc]
  · intro h0 hmod
    have hngt : ¬(info.confidence > confThreshold) := by
      rw [h0]
      decide
    rw [hred2]
    simp only [hngt, decide_eq_true_eq, if_false, decide_eq_false hngt]
    unfold lowConfReply
    rw [if_pos h0, if_pos hmod]
  · intro h0 hmod
    have hngt : ¬(info.confidence > confThreshold) := by
      rw [h0]
      decide
    rw [hred2]
    simp only [decide_eq_false hngt, if_false]
    unfold lowConfReply
    rw [if_pos h0]
    simp [hmod]
  · intro hpos hlt
    have hngt : ¬(info.confidence > confThreshold) := lt_asymm hlt
    have hne0 : ¬(info.confidence = 0) := hpos.ne'
    rw [hred2]
    simp only [decide_eq_false hngt, if_false]
    unfold lowConfReply
    rw [if_neg hne0, if_pos hlt]
    rfl
  · intro heq
    have hngt : ¬(info.confidence > confThreshold) := by
      rw [heq]
      exact lt_irrefl _
    have hne0 : ¬(info.confidence = 0) := by
      rw [heq]
      decide
    have hnlt : ¬(info.confidence < confThreshold) := by
      rw [heq]
      exact lt_irrefl _
    rw [hred2]
    simp only [decide_eq_false hngt, if_false]
    unfold lowConfReply
    rw [if_neg hne0, if_neg hnlt]
    rfl

/-- Witness for C5 at a concrete input: a validated plan with confidence 0
and the word `modify` in its reasoning makes the controller answer with the
read-only security notice. -/
theorem c5_witness :
    (process_user_query true
        (Collab.ok ⟨some ("SELECT 1".toList), 0, "Cannot modify data".toList⟩)
        (Collab.ok ("x".toList)) id []).answer
      = some (securityNoticeMsg ("Cannot modify data".toList)) :=
  ((c5_confidence_gate _ _ _ _ ("SELECT 1".toList) rfl (by decide) (by decide)).2.1)
    rfl (by decide)

/-- Claim C6: the controller is documented (and annotated) to always return
a user-facing string, but for a planner response with a null query and
confidence 0.5 the function skips the execution branch (null query), skips
every low-confidence arm (confidence not below 0.4 and not 0), and falls
off the end, returning Python `None`: an exit path that is not text. -/
theorem c6_fallthrough_returns_none :
    process_user_query true (Collab.ok ⟨none, mkRat 1 2, []⟩)
        (Collab.ok ("x".toList)) id []
      = ⟨none, false, false, false⟩ := by decide

/-- Claim C7: when a validated, confident plan executes and the executor
returns an empty result or the literal `[]`, the controller returns the
fixed no-results message; the answer compiler is not invoked and the
fallback agent is not invoked. -/
theorem c7_empty_result_no_compiler :
    ∀ (info : QueryInfo) (compile : Str → Str) (fallbackAnswer : Str) (q r : Str),
      info.sql_query = some q → q ≠ [] → (is_read_only_query q).1 = true →
      info.confidence > confThreshold →
      ((pyStrip r).isEmpty = true ∨ r = "[]".toList) →
      process_user_query true (Collab.ok info) (Collab.ok r) compile fallbackAnswer
        = ⟨some noResultsMsg, true, false, false⟩ := by
  intro info compile fb q r hq hne hacc hconf hempty
  have hred := processWith_validated clean_sql_results info (Collab.ok r) compile fb q hq hne hacc
  have hred2 : process_user_query true (Collab.ok info) (Collab.ok r) compile fb
      = if decide (info.confidence > confThreshold)
        then execBranch clean_sql_results (Collab.ok r) compile fb
        else ⟨lowConfReply info, false, false, false⟩ := hred
  rw [hred2, if_pos (by simpa using hconf)]
  have hcond : (!r.isEmpty && !(pyStrip r).isEmpty && decide (r ≠ "[]".toList)) = false := by
    rcases hempty with h | h
    · simp [h]
    · subst h
      simp
  show execOk clean_sql_results compile r = _
  unfold execOk
  rw [if_neg (by rw [hcond]; exact Bool.false_ne_true)]

/-- Witness for C7 at a concrete input: executor result `[]` yields the
no-results message with neither compiler nor fallback invoked. -/
theorem c7_witness :
    process_user_query true (Collab.ok ⟨some ("SELECT 1".toList), 1, []⟩)
        (Collab.ok ("[]".toList)) id []
      = ⟨some noResultsMsg, true, false, false⟩ :=
  c7_empty_result_no_compiler _ _ _ ("SELECT 1".toList) ("[]".toList) rfl (by decide)
    (by decide) (by decide) (Or.inr rfl)

/-! ## Normalizer lemmas -/

theorem splitOnce_decomp (pat : Str) :
    ∀ {l pre post : Str}, splitOnce pat l = some (pre, post) → l = pre ++ pat ++ post := by
  intro l
  induction l with
  | nil =>
    intro pre post h
    unfold splitOnce at h
    by_cases hp : pat.isPrefixOf ([] : Str) = true
    · rw [if_pos hp] at h
      obtain ⟨t, ht⟩ := List.isPrefixOf_iff_prefix.mp hp
      cases h
      have hnil : pat = [] := (List.append_eq_nil.mp ht).1
      simp [hnil]
    · rw [if_neg hp] at h
      cases h
  | cons c rest ih =>
    intro pre post h
    unfold splitOnce at h
    by_cases hp : pat.isPrefixOf (c :: rest) = true
    · rw [if_pos hp] at h
      obtain ⟨t, ht⟩ := List.isPrefixOf_iff_prefix.mp hp
      cases h
      have hdrop : (c :: rest).drop pat.length = t := by
        rw [← ht]
        exact List.drop_left pat t
      rw [hdrop, List.nil_append]
      exact ht.symm
    · rw [if_neg hp] at h
      cases hr : splitOnce pat rest with
      | none =>
        rw [hr] at h
        cases h
      | some pr =>
        rw [hr] at h
        obtain ⟨pre2, post2⟩ := pr
        have hd := ih hr
        cases h
        simp [hd]

theorem splitOnce_none_of_missing (c : Char) (pat s : Str)
    (hc : c ∈ pat) (hs : c ∉ s) : splitOnce pat s = none := by
  cases h : splitOnce pat s with
  | none => rfl
  | some pr =>
    obtain ⟨pre, post⟩ := pr
    have hd := splitOnce_decomp pat h
    exact absurd (by rw [hd]; simp [hc]) hs

theorem containsSeq_false_of_missing (c : Char) (pat s : Str)
    (hc : c ∈ pat) (hs : c ∉ s) : containsSeq pat s = false := by
  unfold containsSeq
  rw [splitOnce_none_of_missing c pat s hc hs]
  rfl

theorem replaceAll_noop (pat rep l : Str) (h : splitOnce pat l = none) :
    replaceAll pat rep l = l := by
  unfold replaceAll replaceAllGo
  rw [h]

theorem mem_joinSep (sep : Str) (c : Char) :
    ∀ xs : List Str, c ∈ joinSep sep xs → c ∈ sep ∨ ∃ x ∈ xs, c ∈ x := by
  intro xs
  induction xs with
  | nil =>
    intro h
    cases h
  | cons x rest ih =>
    cases rest with
    | nil =>
      intro h
      exact Or.inr ⟨x, List.mem_cons_self x [], h⟩
    | cons y rest2 =>
      intro h
      have h2 : c ∈ x ++ sep ++ joinSep sep (y :: rest2) := h
      rcases List.mem_append.mp h2 with h3 | h3
      · rcases List.mem_append.mp h3 with h4 | h4
        · exact Or.inr ⟨x, List.mem_cons_self x _, h4⟩
        · exact Or.inl h4
      · rcases ih h3 with h4 | ⟨z, hz, hcz⟩
        · exact Or.inl h4
        · exact Or.inr ⟨z, List.mem_cons_of_mem x hz, hcz⟩

theorem mem_pyStrip {c : Char} {s : Str} (h : c ∈ pyStrip s) : c ∈ s := by
  unfold pyStrip stripTrail stripLead at h
  rw [List.mem_reverse] at h
  have h2 := (List.dropWhile_sublist wsChar).subset h
  rw [List.mem_reverse] at h2
  exact (List.dropWhile_sublist wsChar).subset h2

theorem bracketChar_toUpper (c : Char) (h : bracketChar c = false) :
    bracketChar c.toUpper = false := by
  by_cases hr : c.toNat ≥ 97 ∧ c.toNat ≤ 122
  · have hc : c = Char.ofNat c.toNat := (Char.ofNat_toNat c).symm
    obtain ⟨h1, h2⟩ := hr
    rw [hc]
    set n := c.toNat with hn
    interval_cases n <;> decide
  · have hid : c.toUpper = c := by
      unfold Char.toUpper
      rw [if_neg hr]
    rw [hid]
    exact h

theorem bracketChar_toLower (c : Char) (h : bracketChar c = false) :
    bracketChar c.toLower = false := by
  by_cases hr : c.toNat ≥ 65 ∧ c.toNat ≤ 90
  · have hc : c = Char.ofNat c.toNat := (Char.ofNat_toNat c).symm
    obtain ⟨h1, h2⟩ := hr
    rw [hc]
    set n := c.toNat with hn
    interval_cases n <;> decide
  · have hid : c.toLower = c := by
      unfold Char.toLower
      rw [if_neg hr]
    rw [hid]
    exact h

theorem pyTitleGo_bracketFree :
    ∀ (b : Bool) (l : Str), (∀ c ∈ l, bracketChar c = false) →
      ∀ c ∈ pyTitleGo b l, bracketChar c = false := by
  intro b l
  induction l generalizing b with
  | nil =>
    intro _ c hc
    cases hc
  | cons a rest ih =>
    intro hall c hc
    have ha := hall a (List.mem_cons_self a rest)
    have hrest : ∀ c0 ∈ rest, bracketChar c0 = false :=
      fun c0 hc0 => hall c0 (List.mem_cons_of_mem a hc0)
    unfold pyTitleGo at hc
    rcases List.mem_cons.mp hc with h1 | h1
    · subst h1
      by_cases hal : a.isAlpha = true
      · rw [if_pos hal]
        by_cases hb : b = true
        · rw [if_pos hb]
          exact bracketChar_toLower a ha
        · rw [if_neg hb]
          exact bracketChar_toUpper a ha
      · rw [if_neg hal]
        exact ha
    · exact ih a.isAlpha hrest c h1

theorem pyTitle_bracketFree (l : Str) (h : ∀ c ∈ l, bracketChar c = false) :
    ∀ c ∈ pyTitle l, bracketChar c = false :=
  pyTitleGo_bracketFree false l h

theorem bracketChar_digitChar (k : Nat) (h : k < 10) :
    bracketChar (digitChar k) = false := by
  interval_cases k <;> decide

theorem natDigitsGo_bracketFree :
    ∀ (fuel n : Nat) (acc : Str), (∀ c ∈ acc, bracketChar c = false) →
      ∀ c ∈ natDigitsGo fuel n acc, bracketChar c = false := by
  intro fuel
  induction fuel with
  | zero =>
    intro n acc hacc c hc
    exact hacc c hc
  | succ m ih =>
    intro n acc hacc c hc
    unfold natDigitsGo at hc
    by_cases hn : n < 10
    · rw [if_pos hn] at hc
      rcases List.mem_cons.mp hc with h1 | h1
      · subst h1
        exact bracketChar_digitChar n hn
      · exact hacc c h1
    · rw [if_neg hn] at hc
      refine ih (n / 10) (digitChar (n % 10) :: acc) ?_ c hc
      intro c0 hc0
      rcases List.mem_cons.mp hc0 with h1 | h1
      · subst h1
        exact bracketChar_digitChar (n % 10) (Nat.mod_lt n (by decide))
      · exact hacc c0 h1

theorem intDisplay_bracketFree (n : Int) :
    ∀ c ∈ intDisplay n, bracketChar c = false := by
  intro c hc
  unfold intDisplay natDigits at hc
  rcases List.mem_append.mp hc with h1 | h1
  · rcases List.mem_append.mp h1 with h2 | h2
    · by_cases hn : n < 0
      · rw [if_pos hn] at h2
        rcases List.mem_cons.mp h2 with h3 | h3
        · subst h3
          decide
        · cases h3
      · rw [if_neg hn] at h2
        cases h2
    · exact natDigitsGo_bracketFree _ _ [] (by intro c0 hc0; cases hc0) c h2
  · rcases List.mem_cons.mp h1 with h2 | h2
    · subst h2
      decide
    · rcases List.mem_cons.mp h2 with h3 | h3
      · subst h3
        decide
      · cases h3

theorem isPrefixOf_mem {pat l : Str} {c : Char} (hp : pat.isPrefixOf l = true)
    (hc : c ∈ pat) : c ∈ l := by
  obtain ⟨t, ht⟩ := List.isPrefixOf_iff_prefix.mp hp
  rw [← ht]
  exact List.mem_append.mpr (Or.inl hc)

theorem tryDecimalAt_none {l : Str} (h : '(' ∉ l) : tryDecimalAt l = none := by
  unfold tryDecimalAt
  have hp : ("Decimal(".toList).isPrefixOf l = false := by
    cases hpp : ("Decimal(".toList).isPrefixOf l with
    | false => rfl
    | true => exact absurd (isPrefixOf_mem hpp (by decide)) h
  rw [hp]
  rfl

theorem decimalSubGo_noop : ∀ (fuel : Nat) (l : Str), '(' ∉ l →
    decimalSubGo fuel l = l := by
  intro fuel
  induction fuel with
  | zero =>
    intro l _
    rfl
  | succ m ih =>
    intro l h
    cases l with
    | nil => rfl
    | cons c rest =>
      unfold decimalSubGo
      rw [tryDecimalAt_none h]
      rw [ih rest (fun hm => h (List.mem_cons_of_mem c hm))]

theorem decimalSub_noop (s : Str) (h : '(' ∉ s) : decimalSub s = s :=
  decimalSubGo_noop s.length s h

theorem findTuplesGo_nil : ∀ (fuel : Nat) (l : Str), '(' ∉ l →
    findTuplesGo fuel l = [] := by
  intro fuel
  induction fuel with
  | zero =>
    intro l _
    rfl
  | succ m ih =>
    intro l h
    cases l with
    | nil => rfl
    | cons c rest =>
      unfold findTuplesGo
      rw [if_neg (fun hc => h (by rw [hc]; exact List.mem_cons_self _ _))]
      exact ih rest (fun hm => h (List.mem_cons_of_mem c hm))

theorem findTuples_nil (s : Str) (h : '(' ∉ s) : findTuples s = [] :=
  findTuplesGo_nil s.length s h

theorem quoteSubGo_noop : ∀ (fuel : Nat) (l : Str), quoteC ∉ l →
    quoteSubGo fuel l = l := by
  intro fuel
  induction fuel with
  | zero =>
    intro l _
    rfl
  | succ m ih =>
    intro l h
    cases l with
    | nil => rfl
    | cons c rest =>
      unfold quoteSubGo
      have hc : (c == quoteC) = false :=
        beq_eq_false_iff_ne.mpr (fun hc => h (by rw [← hc]; exact List.mem_cons_self _ _))
      rw [hc]
      simp only [Bool.false_eq_true, if_false]
      rw [ih rest (fun hm => h (List.mem_cons_of_mem c hm))]

theorem quoteSub_noop (s : Str) (h : quoteC ∉ s) : quoteSub s = s :=
  quoteSubGo_noop s.length s h

theorem commaSubGo_noop : ∀ (fuel : Nat) (l : Str), ',' ∉ l →
    commaSubGo fuel l = l := by
  intro fuel
  induction fuel with
  | zero =>
    intro l _
    rfl
  | succ m ih =>
    intro l h
    cases l with
    | nil => rfl
    | cons c rest =>
      unfold commaSubGo
      have hc : (c == ',') = false :=
        beq_eq_false_iff_ne.mpr (fun hc => h (by rw [← hc]; exact List.mem_cons_self _ _))
      rw [hc]
      simp only [Bool.false_eq_true, if_false]
      rw [ih rest (fun hm => h (List.mem_cons_of_mem c hm))]

theorem commaSub_noop (s : Str) (h : ',' ∉ s) : commaSub s = s :=
  commaSubGo_noop s.length s h

theorem hexSubGo_noop : ∀ (fuel : Nat) (l : Str), bslashC ∉ l →
    hexSubGo fuel l = l := by
  intro fuel
  induction fuel with
  | zero =>
    intro l _
    rfl
  | succ m ih =>
    intro l h
    cases l with
    | nil => rfl
    | cons c rest =>
      unfold hexSubGo
      have hc : (c == bslashC) = false :=
        beq_eq_false_iff_ne.mpr (fun hc => h (by rw [← hc]; exact List.mem_cons_self _ _))
      rw [hc]
      simp only [Bool.false_eq_true, if_false]
      rw [ih rest (fun hm => h (List.mem_cons_of_mem c hm))]

theorem hexSub_noop (s : Str) (h : bslashC ∉ s) : hexSub s = s :=
  hexSubGo_noop s.length s h

theorem noTwoAdjUpper_tail {a : Char} {rest : Str}
    (h : noTwoAdjUpper (a :: rest) = true) : noTwoAdjUpper rest = true := by
  cases rest with
  | nil => rfl
  | cons b rest2 =>
    unfold noTwoAdjUpper at h
    exact (Bool.and_eq_true _ _).mp h |>.2

theorem noTwoAdjUpper_head {a b : Char} {rest : Str}
    (h : noTwoAdjUpper (a :: b :: rest) = true) (ha : a.isUpper = true) :
    b.isUpper = false := by
  unfold noTwoAdjUpper at h
  have h1 := (Bool.and_eq_true _ _).mp h |>.1
  cases hb : b.isUpper with
  | false => rfl
  | true =>
    rw [ha, hb] at h1
    cases h1

theorem capsGo_noop (guard : Str → Bool) :
    ∀ (fuel : Nat) (prev : Bool) (l : Str), noTwoAdjUpper l = true →
      capsGo guard fuel prev l = l := by
  intro fuel
  induction fuel with
  | zero =>
    intro prev l _
    rfl
  | succ m ih =>
    intro prev l h
    cases l with
    | nil => rfl
    | cons c rest =>
      unfold capsGo
      by_cases hcu : (!prev && c.isUpper) = true
      · rw [if_pos hcu]
        have hcup : c.isUpper = true := ((Bool.and_eq_true _ _).mp hcu).2
        have hrun : (c :: rest).takeWhile Char.isUpper = [c] := by
          rw [List.takeWhile_cons_of_pos hcup]
          cases rest with
          | nil => rfl
          | cons b rest2 =>
            rw [List.takeWhile_cons_of_neg]
            rw [noTwoAdjUpper_head h hcup]
            exact Bool.false_ne_true
        rw [hrun]
        simp only [List.length_cons, List.length_nil,
          show (decide (2 ≤ 0 + 1)) = false from by decide, Bool.false_and,
          Bool.false_eq_true, if_false]
        rw [ih (wordChar c) rest (noTwoAdjUpper_tail h)]
      · rw [if_neg hcu]
        rw [ih (wordChar c) rest (noTwoAdjUpper_tail h)]

theorem capsSubPlain_noop (s : Str) (h : noTwoAdjUpper s = true) :
    capsSubPlain s = s :=
  capsGo_noop (fun _ => false) s.length false s h

theorem fallbackClean_clean (s : Str) (h : isCleanDisplay s = true) :
    fallbackClean s = s := by
  have hsplit := (Bool.and_eq_true _ _).mp h
  have hall : s.all (fun c => !bannedDisplayChar c) = true :=
    ((Bool.and_eq_true _ _).mp hsplit.1).2
  have hchars : ∀ c ∈ s, bannedDisplayChar c = false := by
    intro c hc
    have := List.all_eq_true.mp hall c hc
    simpa using this
  have hadj : noTwoAdjUpper s = true := hsplit.2
  have hnot : ∀ c : Char, bannedDisplayChar c = true → c ∉ s := by
    intro c hb hm
    rw [hchars c hm] at hb
    exact Bool.false_ne_true hb
  have hlb : '[' ∉ s := hnot '[' (by decide)
  have hrb : ']' ∉ s := hnot ']' (by decide)
  have hlp : '(' ∉ s := hnot '(' (by decide)
  have hrp : ')' ∉ s := hnot ')' (by decide)
  have hq : quoteC ∉ s := hnot quoteC (by decide)
  have hbs : bslashC ∉ s := hnot bslashC (by decide)
  have hcm : ',' ∉ s := hnot ',' (by decide)
  have hbx : containsSeq ['b', bslashC, 'x'] s = false :=
    containsSeq_false_of_missing bslashC _ s (by decide) hbs
  have hpng : containsSeq [bslashC, 'x', '8', '9', 'P', 'N', 'G'] s = false :=
    containsSeq_false_of_missing bslashC _ s (by decide) hbs
  have hdec : decimalSub s = s := decimalSub_noop s hlp
  have htup : findTuples s = [] := findTuples_nil s hlp
  have hr1 : replaceAll ("[(".toList) [] s = s :=
    replaceAll_noop _ [] s (splitOnce_none_of_missing '[' _ s (by decide) hlb)
  have hr2 : replaceAll (")]".toList) [] s = s :=
    replaceAll_noop _ [] s (splitOnce_none_of_missing ')' _ s (by decide) hrp)
  have hfil : List.filter (fun c => !(c == '[' || c == ']' || c == '(' || c == ')')) s = s := by
    rw [List.filter_eq_self]
    intro a ha
    have := hchars a ha
    unfold bannedDisplayChar at this
    simp only [Bool.or_eq_false_iff] at this
    simp [this.1.1.1.1, this.1.1.1.2, this.1.1.2, this.1.2]
  have hqs : quoteSub s = s := quoteSub_noop s hq
  have hcaps : capsSubPlain s = s := capsSubPlain_noop s hadj
  have hcs : commaSub s = s := commaSub_noop s hcm
  have hhx : hexSub s = s := hexSub_noop s hbs
  unfold fallbackClean
  rw [hbx, hpng]
  simp only [Bool.or_self, Bool.false_eq_true, if_false]
  rw [hdec, htup]
  simp only [List.length_nil]
  rw [if_neg (by decide)]
  rw [hr1, hr2, hfil, hqs, hcaps, hcs, hhx]

/-! ## Claims about the Normalizer -/

/-- Claim C9 counterexample: the Normalizer is not idempotent, in two ways.
The raw result `[(None,)]` normalizes to the NULL token, but a second
application takes the fallback path, whose unconditional uppercase-run
title-casing turns `NULL` into `Null`.  And the raw result `[(42,)]`
normalizes to `42.0`, but a second application re-parses that as a float
literal, takes the structured path with a non-list value, and collapses to
the empty string. -/
theorem c9_counterexample :
    clean_sql_results (clean_sql_results ("[(None,)]".toList))
        ≠ clean_sql_results ("[(None,)]".toList) ∧
    clean_sql_results ("[(None,)]".toList) = "NULL".toList ∧
    clean_sql_results (clean_sql_results ("[(None,)]".toList)) = "Null".toList ∧
    clean_sql_results ("[(42,)]".toList) = "42.0".toList ∧
    clean_sql_results ("42.0".toList) = [] :=
  ⟨by decide, by decide, by decide, by decide, by decide⟩

/-- Claim C9 as amended: a second application of the Normalizer rewrites
outputs containing the NULL token or the binary placeholder (all-caps runs
are re-cased and brackets stripped), and collapses purely numeric outputs,
which re-parse as literals, to the empty string; it is the identity on
outputs that fail the literal re-parse and are clean display text
(letter-led, with no container punctuation, quotes, backslashes, commas, or
adjacent uppercase pairs) — on that letter-led quote-free domain the
modelled parse provably coincides with `ast.literal_eval`.  In particular
the Normalizer is idempotent on the scenario-C raw result. -/
theorem c9_idempotent_on_clean_display :
    (∀ s : Str, isCleanDisplay s = true → parseLit s = none →
      clean_sql_results s = s) ∧
    clean_sql_results (clean_sql_results rawHorror) = clean_sql_results rawHorror := by
  refine ⟨?_, by decide⟩
  intro s hclean hparse
  unfold clean_sql_results
  rw [hparse]
  exact fallbackClean_clean s hclean

/-- Witness for C9 at a concrete input: the clean display text
`Horror\nAction` fails the literal re-parse and passes through a second
application of the Normalizer unchanged. -/
theorem c9_witness :
    clean_sql_results ("Horror\nAction".toList) = "Horror\nAction".toList :=
  c9_idempotent_on_clean_display.1 ("Horror\nAction".toList) (by decide) rfl

/-- Claim C10: a string cell (not flagged as binary) is title-cased exactly
when its stripped value is all-uppercase and contains neither an `@` nor an
`http` substring; otherwise the stripped value passes through unchanged;
and the scenario-C raw result normalizes to the two rows `Horror` and
`Action`. -/
theorem c10_title_case_rule :
    (∀ s : Str, binaryStrFlag s = false →
      (pyStrip s).contains '@' = false →
      containsSeq ("http".toList) (pyLower (pyStrip s)) = false →
      pyIsUpper (pyStrip s) = true →
      cellClean (PyVal.strv s) = pyTitle (pyStrip s)) ∧
    (∀ s : Str, binaryStrFlag s = false →
      ((pyStrip s).contains '@' = true ∨
        containsSeq ("http".toList) (pyLower (pyStrip s)) = true ∨
        pyIsUpper (pyStrip s) = false) →
      cellClean (PyVal.strv s) = pyStrip s) ∧
    clean_sql_results rawHorror = "Horror\nAction".toList := by
  refine ⟨?_, ?_, by decide⟩
  · intro s hbin hat hhttp hup
    unfold cellClean
    simp only [hbin, Bool.false_eq_true, if_false]
    simp only [hat, hhttp, hup, Bool.not_false, Bool.true_and, Bool.and_true, if_true]
  · intro s hbin hdisj
    unfold cellClean
    simp only [hbin, Bool.false_eq_true, if_false]
    rcases hdisj with h | h | h
    · have hcond : (!((pyStrip s).contains '@')
          && !(containsSeq ("http".toList) (pyLower (pyStrip s)))
          && pyIsUpper (pyStrip s)) = false := by
        rw [h]
        simp
      simp only [hcond, Bool.false_eq_true, if_false]
    · have hcond : (!((pyStrip s).contains '@')
          && !(containsSeq ("http".toList) (pyLower (pyStrip s)))
          && pyIsUpper (pyStrip s)) = false := by
        rw [h]
        simp
      simp only [hcond, Bool.false_eq_true, if_false]
    · have hcond : (!((pyStrip s).contains '@')
          && !(containsSeq ("http".toList) (pyLower (pyStrip s)))
          && pyIsUpper (pyStrip s)) = false := by
        rw [h]
        simp
      simp only [hcond, Bool.false_eq_true, if_false]

/-- Witness for C10 at a concrete input: the all-uppercase cell `HORROR` is
title-cased. -/
theorem c10_witness :
    cellClean (PyVal.strv ("HORROR".toList)) = pyTitle (pyStrip ("HORROR".toList)) :=
  c10_title_case_rule.1 ("HORROR".toList) (by decide) (by decide) (by decide) (by decide)

theorem structuredRows_length : ∀ items : List PyVal,
    (∀ it ∈ items, isTupleVal it = true) →
    (structuredRows items).length = items.length := by
  intro items
  induction items with
  | nil =>
    intro _
    rfl
  | cons it rest ih =>
    intro hall
    have hrest : ∀ x ∈ rest, isTupleVal x = true :=
      fun x hx => hall x (List.mem_cons_of_mem it hx)
    cases it
    case tuplev cells =>
      show (rowText cells :: structuredRows rest).length = rest.length + 1
      rw [List.length_cons, ih hrest]
    all_goals exact absurd (hall _ (List.mem_cons_self _ _)) Bool.false_ne_true

theorem cellClean_mapCellBytes (f : List Nat → List Nat) (v : PyVal) :
    cellClean (mapCellBytes f v) = cellClean v := by
  cases v <;> rfl

theorem structuredRows_mapRowBytes : ∀ (items : List PyVal) (f : List Nat → List Nat),
    structuredRows (items.map (mapRowBytes f)) = structuredRows items := by
  intro items f
  induction items with
  | nil => rfl
  | cons v rest ih =>
    cases v
    case tuplev cells =>
      show rowText (cells.map (mapCellBytes f)) :: structuredRows (rest.map (mapRowBytes f))
          = rowText cells :: structuredRows rest
      rw [ih]
      congr 1
      unfold rowText
      rw [List.map_map]
      congr 1
      exact List.map_congr_left (fun cell _ => cellClean_mapCellBytes f cell)
    all_goals exact ih

theorem cellClean_bracketFree (cell : PyVal) (h : cellFlatNoBracket cell = true) :
    ∀ c ∈ cellClean cell, bracketChar c = false := by
  cases cell with
  | intv n => exact intDisplay_bracketFree n
  | decv d =>
    intro c hc
    have hm := List.all_eq_true.mp h c hc
    simpa using hm
  | strv s =>
    intro c hc
    have hsplit := (Bool.and_eq_true _ _).mp h
    have hall : ∀ c0 ∈ s, bracketChar c0 = false := by
      intro c0 hc0
      have := List.all_eq_true.mp hsplit.1 c0 hc0
      simpa using this
    have hbin : binaryStrFlag s = false := by
      have := hsplit.2
      simpa using this
    unfold cellClean at hc
    simp only [hbin, Bool.false_eq_true, if_false] at hc
    by_cases hcond : (!((pyStrip s).contains '@')
        && !(containsSeq ("http".toList) (pyLower (pyStrip s)))
        && pyIsUpper (pyStrip s)) = true
    · rw [if_pos hcond] at hc
      exact pyTitle_bracketFree _ (fun c0 hc0 => hall c0 (mem_pyStrip hc0)) c hc
    · rw [if_neg hcond] at hc
      exact hall c (mem_pyStrip hc)
  | nonev =>
    intro c hc
    exact (by decide : ∀ c0 ∈ ("NULL".toList : Str), bracketChar c0 = false) c hc
  | floatv d => exact absurd h Bool.false_ne_true
  | boolv b => exact absurd h Bool.false_ne_true
  | bytesv b => exact absurd h Bool.false_ne_true
  | tuplev cs => exact absurd h Bool.false_ne_true
  | listv xs => exact absurd h Bool.false_ne_true
  | otherv d => exact absurd h Bool.false_ne_true

theorem rowText_bracketFree (cells : List PyVal)
    (h : ∀ cell ∈ cells, cellFlatNoBracket cell = true) :
    ∀ c ∈ rowText cells, bracketChar c = false := by
  intro c hc
  unfold rowText at hc
  rcases mem_joinSep _ c _ hc with hsep | ⟨x, hx, hcx⟩
  · exact (by decide : ∀ c0 ∈ (" | ".toList : Str), bracketChar c0 = false) c hsep
  · obtain ⟨cell, hcell, hxeq⟩ := List.mem_map.mp hx
    subst hxeq
    exact cellClean_bracketFree cell (h cell hcell) c hcx

theorem joined_bracketFree (items : List PyVal)
    (h : ∀ it ∈ items, rowFlatNoBracket it = true) :
    ∀ c ∈ joinSep ['\n'] (structuredRows items), bracketChar c = false := by
  intro c hc
  rcases mem_joinSep _ c _ hc with hsep | ⟨x, hx, hcx⟩
  · have hcn : c = '\n' := by simpa using hsep
    subst hcn
    decide
  · obtain ⟨it, hit, hfx⟩ := List.mem_filterMap.mp hx
    have hrow := h it hit
    cases it
    case tuplev cells =>
      have hxeq : x = rowText cells := by
        have := hfx
        simp only [Option.some_inj] at this
        exact this.symm
      subst hxeq
      refine rowText_bracketFree cells ?_ c hcx
      intro cell hcell
      exact List.all_eq_true.mp hrow cell hcell
    all_goals exact absurd hrow Bool.false_ne_true

theorem postClean_noop (s : Str) (h : ∀ c ∈ s, bracketChar c = false) :
    postClean s = s := by
  have hnotmem : ∀ c : Char, bracketChar c = true → c ∉ s := by
    intro c hb hm
    rw [h c hm] at hb
    exact Bool.false_ne_true hb
  have hlp := hnotmem '(' (by decide)
  have hlb := hnotmem '[' (by decide)
  have hrp := hnotmem ')' (by decide)
  unfold postClean
  rw [decimalSub_noop s hlp,
    replaceAll_noop _ [] s (splitOnce_none_of_missing '[' _ s (by decide) hlb),
    replaceAll_noop _ [] s (splitOnce_none_of_missing ')' _ s (by decide) hrp)]

/-- Claim C8 counterexample: the claim as stated is unconditional over
parsed row sequences, but a row whose cell is itself a container is
rendered through `str()`: the raw result `[([1, 2],)]` normalizes to
`[1, 2]`, container brackets in the output, and `[((b` followed by a quoted
`\x89` byte, `,),)]` — a nested tuple holding a bytes value — normalizes to
the tuple repr with its `\x`-escaped payload un-redacted. -/
theorem c8_counterexample :
    clean_sql_results ("[([1, 2],)]".toList) = "[1, 2]".toList ∧
    '[' ∈ clean_sql_results ("[([1, 2],)]".toList) ∧
    clean_sql_results ("[((b".toList ++ [quoteC, bslashC] ++ "x89".toList
        ++ [quoteC] ++ ",),)]".toList)
      = "(b".toList ++ [quoteC, bslashC] ++ "x89".toList ++ [quoteC] ++ ",)".toList ∧
    bslashC ∈ clean_sql_results ("[((b".toList ++ [quoteC, bslashC] ++ "x89".toList
        ++ [quoteC] ++ ",),)]".toList) :=
  ⟨by decide, by decide, by decide, by decide⟩

/-- Claim C8 as amended: on the structured path, (a) a parsed list all of
whose items are tuples yields exactly one output row per source row,
unconditionally; (b) the rows never depend on the payload of any bytes
cell, which is redacted to the placeholder; (c) for rows of atomic cells
(int, Decimal, string, None) whose own content carries no container
punctuation and no binary flag, the full structured output (post-processing
included) contains no bracket or parenthesis characters — rows with nested
container cells are rendered through `str()` and can emit container
punctuation and un-redacted escaped bytes payloads, as the counterexample
shows. -/
theorem c8_structured_shape :
    (∀ items : List PyVal, (∀ it ∈ items, isTupleVal it = true) →
      (structuredRows items).length = items.length) ∧
    (∀ (items : List PyVal) (f : List Nat → List Nat),
      structuredRows (items.map (mapRowBytes f)) = structuredRows items) ∧
    (∀ items : List PyVal, (∀ it ∈ items, rowFlatNoBracket it = true) →
      ∀ c ∈ structuredClean (PyVal.listv items), bracketChar c = false) := by
  refine ⟨structuredRows_length, structuredRows_mapRowBytes, ?_⟩
  intro items h c hc
  have hjoin := joined_bracketFree items h
  have heq : structuredClean (PyVal.listv items) = joinSep ['\n'] (structuredRows items) := by
    unfold structuredClean
    exact postClean_noop _ hjoin
  rw [heq] at hc
  exact hjoin c hc

/-- Witness for C8 at concrete inputs: a two-row list of tuples yields two
rows, and a one-row structured result over a plain string cell contains no
container punctuation. -/
theorem c8_witness :
    (structuredRows [PyVal.tuplev [PyVal.strv ("HI".toList), PyVal.intv 3],
        PyVal.tuplev [PyVal.nonev]]).length = 2 ∧
    (∀ c ∈ structuredClean (PyVal.listv [PyVal.tuplev [PyVal.strv ("HI".toList)]]),
      bracketChar c = false) :=
  ⟨c8_structured_shape.1 _ (by decide), c8_structured_shape.2.2 _ (by decide)⟩
